import Mathlib

/-!
Verification of the SafaOS Shell core: the command-line tokenizer
(src/lexer.rs) and the program-resolution/execution engine (src/main.rs
with the builtin table of src/builtin.rs), embedded shallowly.

Modelling conventions:
* A line of input is a `List Char`; the Rust `CharIndices` iterator is
  modelled as the list of (index, character) pairs not yet consumed.  The
  Rust code indexes the raw input by UTF-8 byte offset while stepping one
  character at a time, so its index arithmetic is exact precisely for
  single-byte characters; the embedding identifies byte offsets with
  character positions, which is faithful for every input considered here.
* Process-global effects (environment variables, the working directory,
  the file system, spawning, the wait on a child) are fields of an
  explicit `OSEnv` record.
* `execute` additionally returns the list of observable events (candidate
  existence probes, spawns, builtin dispatches) in order, so that search
  order and the absence of a spawn are provable statements.
-/

/-- The single-quote character (U+0027). -/
def singleQuote : Char := Char.ofNat 39

/-- `Token` from src/lexer.rs: `Word`, `Str` (quoted string) and `Var`
(variable reference).  Each payload is the span sliced out of the raw
input line. -/
inductive Token where
  | word (s : List Char)
  | str (s : List Char)
  | var (s : List Char)
deriving DecidableEq, Repr

/-- The slice `input_raw[start..e]` of the raw input line. -/
def listSlice (input : List Char) (start e : Nat) : List Char :=
  (input.drop start).take (e - start)

/-- The scanning loop
`while !self.chars.next().is_none_or(|(_, c)| stop(c)) { end += 1 }`
of `Lexer::next`: it consumes pairs until the stopping character (which is
itself consumed) or the end of input, incrementing `e` once per consumed
non-stopping character; it returns the final `e` together with the pairs
left in the iterator. -/
def scan_stop (stop : Char → Bool) : List (Nat × Char) → Nat → Nat × List (Nat × Char)
  | [], e => (e, [])
  | (_, c) :: rest, e => if stop c then (e, rest) else scan_stop stop rest (e + 1)

/-- `Lexer::next` from src/lexer.rs.  The four branches: skip whitespace
(by self-recursion), a quoted string opened by a double or single quote
(content `input_raw[start+1..end]`, the matching close quote consumed), a
variable reference after the sigil `$` (content up to whitespace or end of
input), and a plain word (content `input_raw[start..end+1]`). -/
def lexNext (inputRaw : List Char) : List (Nat × Char) → Option (Token × List (Nat × Char))
  | [] => none
  | (start, c) :: rest =>
    if c.isWhitespace then
      lexNext inputRaw rest
    else if c = '"' ∨ c = singleQuote then
      some (Token.str (listSlice inputRaw (start + 1)
          (scan_stop (fun ch => ch == c) rest (start + 1)).1),
        (scan_stop (fun ch => ch == c) rest (start + 1)).2)
    else if c = '$' then
      some (Token.var (listSlice inputRaw (start + 1)
          (scan_stop (fun ch => ch.isWhitespace) rest (start + 1)).1),
        (scan_stop (fun ch => ch.isWhitespace) rest (start + 1)).2)
    else
      some (Token.word (listSlice inputRaw start
          ((scan_stop (fun ch => ch.isWhitespace) rest start).1 + 1)),
        (scan_stop (fun ch => ch.isWhitespace) rest start).2)

/-- Driving the lexer to the end of input: collect tokens until
`Lexer::next` returns `None`.  Each successful step consumes at least one
character of the iterator, so the fuel `input.length + 1` supplied by
`tokenize` never runs out. -/
def runLexerFuel (inputRaw : List Char) : Nat → List (Nat × Char) → List Token
  | 0, _ => []
  | fuel + 1, chars =>
    match lexNext inputRaw chars with
    | none => []
    | some (t, rest) => t :: runLexerFuel inputRaw fuel rest

/-- The full token sequence of an input line, starting from
`input.char_indices()`. -/
def tokenize (input : List Char) : List Token :=
  runLexerFuel input (input.length + 1) (List.enum input)

/-- Kinds of `std::io::Error`, distinguishing the kinds the search policy
of `Shell::execute_program` is concerned with. -/
inductive IoErrorKind where
  | notFound
  | isADirectory
  | permissionDenied
  | otherError
deriving DecidableEq, Repr

/-- `std::process::ExitStatus`: `code` is `none` when the child was killed
by a signal. -/
structure ExitStatus where
  code : Option Int
deriving DecidableEq, Repr

/-- `ExitStatus::success`: on the host platform it holds exactly when the
exit code is zero. -/
def ExitStatus.success (s : ExitStatus) : Bool := s.code == some 0

/-- `ShellError` from src/main.rs. -/
inductive ShellError where
  | ioError (k : IoErrorKind)
  | exitError (status : ExitStatus)
  | builtinError
deriving DecidableEq, Repr

/-- `io::Result<ExitStatus>`, the result of `Child::wait`: an I/O error or
an exit status. -/
inductive WaitResult where
  | err (k : IoErrorKind)
  | status (s : ExitStatus)
deriving DecidableEq, Repr

/-- Result of `Command::spawn`: an I/O error, or a child whose `wait`
yields either an I/O error or an exit status. -/
inductive SpawnResult where
  | err (k : IoErrorKind)
  | child (wait : WaitResult)
deriving DecidableEq, Repr

/-- Outcome of one `execute` call.  `panicked` models a Rust panic (an
`expect` firing) and `exitProcess` models `std::process::exit` reached
from the `exit` builtin; `ok` and `err` are the two sides of the
`Result<u32, ShellError>` the Rust function returns. -/
inductive ExecResult where
  | ok (code : Nat)
  | err (e : ShellError)
  | panicked (msg : String)
  | exitProcess (code : Nat)
deriving DecidableEq, Repr

/-- Observable actions of the executor: an existence probe of a candidate
path, a spawn of a path (or of the bare program name), or a builtin
dispatch. -/
inductive Event where
  | probe (path : String)
  | spawn (path : String)
  | builtin (name : String)
deriving DecidableEq, Repr

/-- The process-global state `execute` reads: environment variables
(`std::env::var`), the current working directory, the platform path-list
separator `MULTI_PATH_SEP` (a single character: a colon on POSIX hosts, a
semicolon on windows and SafaOS), the file system (`pathExists` for
`Path::exists`, `spawn` for `Command::spawn` plus the subsequent wait) and
the effects available to builtins (`flushStdout` for the `clear` builtin,
`setCurrentDir` for `cd`). -/
structure OSEnv where
  getVar : String → Option String
  cwd : String
  multiPathSep : Char
  pathExists : String → Bool
  spawn : String → List String → SpawnResult
  flushStdout : Option IoErrorKind
  setCurrentDir : String → Option IoErrorKind

/-- `Token::as_str` from src/lexer.rs: words and quoted strings resolve to
their literal span; a variable reference resolves to
`std::env::var(name).unwrap_or_default()`, i.e. the environment value when
the name is set and the empty string otherwise. -/
def Token.as_str (env : OSEnv) : Token → String
  | .word s => String.mk s
  | .str s => String.mk s
  | .var name => (env.getVar (String.mk name)).getD ""

/-- The `as u32` reinterpretation of an i32 exit code. -/
def i32_as_u32 (i : Int) : Nat := (i % (4294967296 : Int)).toNat

/-- The `handle_child` closure inside `Shell::execute_program`: wait for
the child (a wait failure propagates as an I/O error through `?`), then
translate the exit status: non-success becomes `ExitError` carrying the
status, success becomes `Ok(code.unwrap_or(0) as u32)`. -/
def handle_child (wait : WaitResult) : ExecResult :=
  match wait with
  | .err e => .err (.ioError e)
  | .status results =>
    if !results.success then .err (.exitError results)
    else .ok (i32_as_u32 (results.code.getD 0))

/-- Rust `str::split` with a single-character pattern (empty pieces are
kept, and the empty input yields one empty piece). -/
def split_char (sep : Char) : List Char → List (List Char)
  | [] => [[]]
  | c :: rest =>
    match split_char sep rest with
    | [] => [[]]
    | g :: gs => if c = sep then [] :: g :: gs else (c :: g) :: gs

/-- `path.split(MULTI_PATH_SEP)` on the PATH environment value. -/
def split_path (sep : Char) (s : String) : List String :=
  (split_char sep s.toList).map String.mk

/-- `Path::join` for a relative program name. -/
def joinPath (dir program : String) : String := dir ++ "/" ++ program

/-- The `for dir in path` loop of `Shell::execute_program` over the
remaining candidate directories, followed by the bare-name fallback
`Command::new(program).args(args).spawn()?` once the list is exhausted.
A candidate whose joined path does not exist is skipped (`continue`); for
an existing candidate the spawn result is returned directly: a child is
waited on via `handle_child`, a spawn error is returned as
`ShellError::IoError`. -/
def search_candidates (env : OSEnv) (program : String) (args : List String) :
    List String → ExecResult × List Event
  | [] =>
    match env.spawn program args with
    | .child w => (handle_child w, [.spawn program])
    | .err k => (.err (.ioError k), [.spawn program])
  | dir :: rest =>
    if env.pathExists (joinPath dir program) then
      match env.spawn (joinPath dir program) args with
      | .child w =>
        (handle_child w, [.probe (joinPath dir program), .spawn (joinPath dir program)])
      | .err k =>
        (.err (.ioError k), [.probe (joinPath dir program), .spawn (joinPath dir program)])
    else
      ((search_candidates env program args rest).1,
        .probe (joinPath dir program) :: (search_candidates env program args rest).2)

/-- `Shell::execute_program` from src/main.rs: read PATH (panicking via
`expect` when it is unset), split it on `MULTI_PATH_SEP`, chain the
current working directory as the final candidate directory, and run the
candidate search. -/
def execute_program (env : OSEnv) (program : String) (args : List String) :
    ExecResult × List Event :=
  match env.getVar "PATH" with
  | none => (.panicked "Failed to get the PATH Environment variable", [])
  | some path =>
    search_candidates env program args (split_path env.multiPathSep path ++ [env.cwd])

/-- The keys of `BUILTIN_COMMANDS` from src/builtin.rs. -/
def BUILTIN_NAMES : List String := ["exit", "clear", "cd"]

/-- The builtin actions of src/builtin.rs, with the `.map(|()| 0)` of
`Shell::execute` baked in: `exit` terminates the process with code 0,
`clear` prints and flushes (a flush failure propagates as an I/O error),
`cd` fails with `BuiltinError` when no argument is given and otherwise
changes the working directory (a failure propagates as an I/O error). -/
def run_builtin (env : OSEnv) (name : String) (args : List String) : ExecResult :=
  if name = "exit" then .exitProcess 0
  else if name = "clear" then
    match env.flushStdout with
    | some k => .err (.ioError k)
    | none => .ok 0
  else if name = "cd" then
    if args.length < 1 then .err .builtinError
    else
      match env.setCurrentDir (args.getD 0 "") with
      | some k => .err (.ioError k)
      | none => .ok 0
  else .ok 0

/-- The resolved command line: every token of the input mapped through
`Token::as_str`, as done by `Shell::execute`. -/
def resolvedCommand (env : OSEnv) (input : List Char) : List String :=
  (tokenize input).map (Token.as_str env)

/-- `Shell::execute` from src/main.rs: tokenize and resolve the line; an
empty sequence succeeds immediately with `Ok(0)`; otherwise the first
string is the program and the rest the arguments; a program named in
`BUILTIN_COMMANDS` dispatches to the builtin, anything else goes to
`Shell::execute_program`. -/
def execute (env : OSEnv) (input : List Char) : ExecResult × List Event :=
  match resolvedCommand env input with
  | [] => (.ok 0, [])
  | program :: args =>
    if BUILTIN_NAMES.contains program then
      (run_builtin env program args, [.builtin program])
    else
      execute_program env program args

/-! ### Helper lemmas about the lexer -/

/-- The iterator state after the first `k` characters of the input have
been consumed: the remaining (index, character) pairs. -/
def iterAt (input : List Char) (k : Nat) : List (Nat × Char) :=
  List.enumFrom k (input.drop k)

theorem iterAt_zero (input : List Char) : iterAt input 0 = List.enum input := rfl

theorem iterAt_nil (input : List Char) (k : Nat) (h : input.length ≤ k) :
    iterAt input k = [] := by
  unfold iterAt
  rw [List.drop_eq_nil_of_le h]
  rfl

theorem iterAt_cons (input : List Char) (k : Nat) (h : k < input.length) :
    iterAt input k = (k, input[k]) :: iterAt input (k + 1) := by
  unfold iterAt
  rw [List.drop_eq_getElem_cons h]
  rfl

/-- The index at which a scanning loop started at position `k` stops: the
first index at or after `k` holding a stopping character, or the input
length when there is none. -/
def scanIdx (stop : Char → Bool) (input : List Char) (k : Nat) : Nat :=
  if h : k < input.length then
    if stop input[k] then k else scanIdx stop input (k + 1)
  else input.length
termination_by input.length - k

theorem scanIdx_eq_of_ge (stop : Char → Bool) (input : List Char) (k : Nat)
    (h : input.length ≤ k) : scanIdx stop input k = input.length := by
  unfold scanIdx
  rw [dif_neg (by omega)]

theorem scanIdx_eq_stop (stop : Char → Bool) (input : List Char) (k : Nat)
    (h : k < input.length) (hs : stop input[k] = true) : scanIdx stop input k = k := by
  unfold scanIdx
  rw [dif_pos h, if_pos hs]

theorem scanIdx_eq_step (stop : Char → Bool) (input : List Char) (k : Nat)
    (h : k < input.length) (hs : ¬ stop input[k] = true) :
    scanIdx stop input k = scanIdx stop input (k + 1) := by
  conv_lhs => rw [scanIdx]
  rw [dif_pos h, if_neg hs]

theorem scanIdx_spec (stop : Char → Bool) (input : List Char) :
    ∀ n k, input.length - k ≤ n → k ≤ input.length →
      k ≤ scanIdx stop input k ∧ scanIdx stop input k ≤ input.length ∧
      (∀ i, k ≤ i → i < scanIdx stop input k →
        ∃ h : i < input.length, stop input[i] = false) ∧
      (scanIdx stop input k = input.length ∨
        ∃ h : scanIdx stop input k < input.length,
          stop input[scanIdx stop input k] = true) := by
  intro n
  induction n with
  | zero =>
    intro k hn hk
    have hk2 : k = input.length := by omega
    subst hk2
    rw [scanIdx_eq_of_ge stop input _ (le_refl _)]
    refine ⟨le_refl _, le_refl _, ?_, Or.inl rfl⟩
    intro i h1 h2
    omega
  | succ n ih =>
    intro k hn hk
    rcases Nat.lt_or_ge k input.length with hlt | hge
    · by_cases hs : stop input[k] = true
      · rw [scanIdx_eq_stop stop input k hlt hs]
        refine ⟨le_refl _, le_of_lt hlt, ?_, Or.inr ⟨hlt, hs⟩⟩
        intro i h1 h2
        omega
      · have hb : stop input[k] = false := by
          simpa using hs
        obtain ⟨g1, g2, g3, g4⟩ := ih (k + 1) (by omega) (by omega)
        rw [scanIdx_eq_step stop input k hlt hs]
        refine ⟨by omega, g2, ?_, g4⟩
        intro i h1 h2
        rcases Nat.eq_or_lt_of_le h1 with heq | h1'
        · subst heq
          exact ⟨hlt, hb⟩
        · exact g3 i (by omega) h2
    · have hk2 : k = input.length := by omega
      subst hk2
      rw [scanIdx_eq_of_ge stop input _ (le_refl _)]
      refine ⟨le_refl _, le_refl _, ?_, Or.inl rfl⟩
      intro i h1 h2
      omega

/-- The scanning loop started at position `k` of the input with counter
`e` stops at `scanIdx`, having incremented the counter once per scanned
character, and leaves the iterator just past the stopping character. -/
theorem scan_stop_eq (stop : Char → Bool) (input : List Char) :
    ∀ n k e, input.length - k ≤ n → k ≤ input.length →
      scan_stop stop (iterAt input k) e =
        (e + (scanIdx stop input k - k), iterAt input (scanIdx stop input k + 1)) := by
  intro n
  induction n with
  | zero =>
    intro k e hn hk
    have hk2 : k = input.length := by omega
    subst hk2
    rw [scanIdx_eq_of_ge stop input _ (le_refl _),
      iterAt_nil input _ (le_refl _), iterAt_nil input _ (by omega)]
    simp [scan_stop]
  | succ n ih =>
    intro k e hn hk
    rcases Nat.lt_or_ge k input.length with hlt | hge
    · rw [iterAt_cons input k hlt]
      by_cases hs : stop input[k] = true
      · rw [scanIdx_eq_stop stop input k hlt hs]
        simp [scan_stop, hs]
      · have hge1 := (scanIdx_spec stop input input.length (k + 1) (by omega) (by omega)).1
        rw [scanIdx_eq_step stop input k hlt hs]
        have hb : stop input[k] = false := by
          simpa using hs
        simp only [scan_stop, hb, Bool.false_eq_true, if_false]
        rw [ih (k + 1) (e + 1) (by omega) (by omega)]
        congr 1
        omega
    · have hk2 : k = input.length := by omega
      subst hk2
      rw [scanIdx_eq_of_ge stop input _ (le_refl _),
        iterAt_nil input _ (le_refl _), iterAt_nil input _ (by omega)]
      simp [scan_stop]

/-- Every character of the slice `input[a..b]` is a character of the input
at an index in `[a, b)`. -/
theorem mem_listSlice (input : List Char) (a b : Nat) (c : Char)
    (hc : c ∈ listSlice input a b) :
    ∃ i, a ≤ i ∧ i < b ∧ ∃ h : i < input.length, input[i] = c := by
  unfold listSlice at hc
  obtain ⟨j, hj, hget⟩ := List.mem_iff_getElem.mp hc
  rw [List.length_take, List.length_drop] at hj
  have hj1 : j < b - a := lt_of_lt_of_le hj (min_le_left _ _)
  have hj2 : j < input.length - a := lt_of_lt_of_le hj (min_le_right _ _)
  refine ⟨a + j, by omega, by omega, by omega, ?_⟩
  rw [List.getElem_take, List.getElem_drop] at hget
  exact hget

/-- Case analysis of one `Lexer::next` step at position `k`: either the
input is exhausted (result `none`), or a token is produced, the iterator
lands on a later position, and a word or variable token contains no
whitespace character. -/
theorem lexNext_sound (input : List Char) :
    ∀ n k, input.length - k ≤ n →
      lexNext input (iterAt input k) = none ∨
      ∃ t k2, lexNext input (iterAt input k) = some (t, iterAt input k2) ∧
        (∀ s, t = Token.word s ∨ t = Token.var s → ∀ c ∈ s, c.isWhitespace = false) := by
  intro n
  induction n with
  | zero =>
    intro k hn
    left
    rw [iterAt_nil input k (by omega)]
    rfl
  | succ n ih =>
    intro k hn
    rcases Nat.lt_or_ge k input.length with hlt | hge
    · by_cases hw : (input[k]).isWhitespace = true
      · have hstep : lexNext input (iterAt input k) = lexNext input (iterAt input (k + 1)) := by
          rw [iterAt_cons input k hlt]
          simp only [lexNext]
          rw [if_pos hw]
        rw [hstep]
        exact ih (k + 1) (by omega)
      · have hwf : (input[k]).isWhitespace = false := by simpa using hw
        by_cases hq : input[k] = '"' ∨ input[k] = singleQuote
        · have hsc := scan_stop_eq (fun ch => ch == input[k]) input
            input.length (k + 1) (k + 1) (by omega) (by omega)
          have hge1 := (scanIdx_spec (fun ch => ch == input[k]) input
            input.length (k + 1) (by omega) (by omega)).1
          right
          refine ⟨Token.str (listSlice input (k + 1)
              (scanIdx (fun ch => ch == input[k]) input (k + 1))),
            scanIdx (fun ch => ch == input[k]) input (k + 1) + 1, ?_, ?_⟩
          · rw [iterAt_cons input k hlt]
            simp only [lexNext]
            rw [if_neg (by simp [hw]), if_pos hq, hsc]
            have harith : k + 1 + (scanIdx (fun ch => ch == input[k]) input (k + 1) - (k + 1))
                = scanIdx (fun ch => ch == input[k]) input (k + 1) := by omega
            simp [harith]
          · intro s hs c hc
            rcases hs with h | h <;> exact Token.noConfusion h
        · by_cases hd : input[k] = '$'
          · have hsc := scan_stop_eq (fun ch => ch.isWhitespace) input
              input.length (k + 1) (k + 1) (by omega) (by omega)
            have hspec := scanIdx_spec (fun ch => ch.isWhitespace) input
              input.length (k + 1) (by omega) (by omega)
            right
            refine ⟨Token.var (listSlice input (k + 1)
                (scanIdx (fun ch => ch.isWhitespace) input (k + 1))),
              scanIdx (fun ch => ch.isWhitespace) input (k + 1) + 1, ?_, ?_⟩
            · rw [iterAt_cons input k hlt]
              simp only [lexNext]
              rw [if_neg (by simp [hw]), if_neg hq, if_pos hd, hsc]
              have harith : k + 1 + (scanIdx (fun ch => ch.isWhitespace) input (k + 1) - (k + 1))
                  = scanIdx (fun ch => ch.isWhitespace) input (k + 1) := by
                have := hspec.1
                omega
              simp [harith]
            · intro s hs c hc
              rcases hs with h | h
              · exact Token.noConfusion h
              · have hs2 : listSlice input (k + 1)
                    (scanIdx (fun ch => ch.isWhitespace) input (k + 1)) = s := by
                  injection h
                rw [← hs2] at hc
                obtain ⟨i, hi1, hi2, hilen, hgot⟩ := mem_listSlice input _ _ c hc
                obtain ⟨h2, hzf⟩ := hspec.2.2.1 i hi1 hi2
                rw [← hgot]
                exact hzf
          · have hsc := scan_stop_eq (fun ch => ch.isWhitespace) input
              input.length (k + 1) k (by omega) (by omega)
            have hspec := scanIdx_spec (fun ch => ch.isWhitespace) input
              input.length (k + 1) (by omega) (by omega)
            right
            refine ⟨Token.word (listSlice input k
                (scanIdx (fun ch => ch.isWhitespace) input (k + 1))),
              scanIdx (fun ch => ch.isWhitespace) input (k + 1) + 1, ?_, ?_⟩
            · rw [iterAt_cons input k hlt]
              simp only [lexNext]
              rw [if_neg (by simp [hw]), if_neg hq, if_neg hd, hsc]
              have harith : k + (scanIdx (fun ch => ch.isWhitespace) input (k + 1) - (k + 1)) + 1
                  = scanIdx (fun ch => ch.isWhitespace) input (k + 1) := by
                have := hspec.1
                omega
              simp [harith]
            · intro s hs c hc
              rcases hs with h | h
              · have hs2 : listSlice input k
                    (scanIdx (fun ch => ch.isWhitespace) input (k + 1)) = s := by
                  injection h
                rw [← hs2] at hc
                obtain ⟨i, hi1, hi2, hilen, hgot⟩ := mem_listSlice input _ _ c hc
                rcases Nat.eq_or_lt_of_le hi1 with heq | hgt
                · have h4 : i = k := heq.symm
                  subst h4
                  rw [← hgot]
                  exact hwf
                · obtain ⟨h2, hzf⟩ := hspec.2.2.1 i (by omega) hi2
                  rw [← hgot]
                  exact hzf
              · exact Token.noConfusion h
    · left
      rw [iterAt_nil input k hge]
      rfl

/-- Every word or variable token the lexer driver produces contains no
whitespace character. -/
theorem runLexer_sound (input : List Char) :
    ∀ fuel k t, t ∈ runLexerFuel input fuel (iterAt input k) →
      ∀ s, t = Token.word s ∨ t = Token.var s → ∀ c ∈ s, c.isWhitespace = false := by
  intro fuel
  induction fuel with
  | zero =>
    intro k t ht
    simp [runLexerFuel] at ht
  | succ fuel ih =>
    intro k t ht s hs c hc
    rcases lexNext_sound input input.length k (by omega) with hnone | ⟨t2, k2, heq, hok⟩
    · rw [runLexerFuel, hnone] at ht
      simp at ht
    · rw [runLexerFuel, heq] at ht
      simp at ht
      rcases ht with rfl | ht
      · exact hok s hs c hc
      · exact ih k2 t ht s hs c hc

/-- `Lexer::next` on a run of whitespace pairs reaches the end of input
and returns `None`. -/
theorem lexNext_none_of_ws (input : List Char) :
    ∀ chars : List (Nat × Char), (∀ p ∈ chars, (Prod.snd p).isWhitespace = true) →
      lexNext input chars = none := by
  intro chars
  induction chars with
  | nil =>
    intro _
    rfl
  | cons p rest ih =>
    intro h
    obtain ⟨i, c⟩ := p
    have hc : c.isWhitespace = true := h (i, c) (by simp)
    simp only [lexNext]
    rw [if_pos hc]
    exact ih (fun q hq => h q (by simp [hq]))

theorem snd_mem_enumFrom (l : List Char) :
    ∀ n p, p ∈ List.enumFrom n l → Prod.snd p ∈ l := by
  induction l with
  | nil =>
    intro n p h
    simp [List.enumFrom] at h
  | cons c tl ih =>
    intro n p h
    simp only [List.enumFrom, List.mem_cons] at h
    rcases h with rfl | h
    · simp
    · exact List.mem_cons_of_mem _ (ih (n + 1) p h)

/-! ### Helper lemmas about the executor -/

/-- A candidate directory whose joined path does not exist is skipped: the
outcome is that of the remaining candidates, with only a probe recorded. -/
theorem search_candidates_skip (env : OSEnv) (program : String) (args : List String)
    (dir : String) (rest : List String)
    (h : env.pathExists (joinPath dir program) = false) :
    search_candidates env program args (dir :: rest) =
      ((search_candidates env program args rest).1,
        Event.probe (joinPath dir program) :: (search_candidates env program args rest).2) := by
  simp [search_candidates, h]

/-- A candidate directory whose joined path exists is spawned at once:
a successful spawn is waited on, a spawn error is returned directly. -/
theorem search_candidates_hit (env : OSEnv) (program : String) (args : List String)
    (dir : String) (rest : List String)
    (h : env.pathExists (joinPath dir program) = true) :
    search_candidates env program args (dir :: rest) =
      ((match env.spawn (joinPath dir program) args with
        | SpawnResult.child w => handle_child w
        | SpawnResult.err k => ExecResult.err (ShellError.ioError k)),
       [Event.probe (joinPath dir program), Event.spawn (joinPath dir program)]) := by
  simp only [search_candidates, h, if_true]
  cases env.spawn (joinPath dir program) args <;> rfl

/-- The first existing candidate in directory order wins: all earlier
directories are only probed, the winning path is probed and spawned, and
the search never looks further. -/
theorem search_first_hit (env : OSEnv) (program : String) (args : List String) :
    ∀ (pre : List String) (d : String) (post : List String),
      (∀ dp ∈ pre, env.pathExists (joinPath dp program) = false) →
      env.pathExists (joinPath d program) = true →
      search_candidates env program args (pre ++ d :: post) =
        ((match env.spawn (joinPath d program) args with
          | SpawnResult.child w => handle_child w
          | SpawnResult.err k => ExecResult.err (ShellError.ioError k)),
         pre.map (fun dp => Event.probe (joinPath dp program)) ++
           [Event.probe (joinPath d program), Event.spawn (joinPath d program)]) := by
  intro pre
  induction pre with
  | nil =>
    intro d post hpre hd
    rw [List.nil_append, search_candidates_hit env program args d post hd]
    simp
  | cons dp pre ih =>
    intro d post hpre hd
    rw [List.cons_append,
      search_candidates_skip env program args dp (pre ++ d :: post) (hpre dp (by simp)),
      ih d post (fun x hx => hpre x (by simp [hx])) hd]
    simp

/-- `Shell::execute` on a non-empty resolved command line dispatches on
the builtin table. -/
theorem execute_cons (env : OSEnv) (input : List Char) (program : String)
    (args : List String) (htok : resolvedCommand env input = program :: args) :
    execute env input =
      if BUILTIN_NAMES.contains program then
        (run_builtin env program args, [Event.builtin program])
      else execute_program env program args := by
  unfold execute
  rw [htok]

/-- `Shell::execute_program` with PATH set searches the split path plus
the working directory. -/
theorem execute_program_some (env : OSEnv) (program : String) (args : List String)
    (path : String) (hpath : env.getVar "PATH" = some path) :
    execute_program env program args =
      search_candidates env program args (split_path env.multiPathSep path ++ [env.cwd]) := by
  unfold execute_program
  rw [hpath]

/-- `Shell::execute_program` with PATH unset panics in the `expect`. -/
theorem execute_program_none (env : OSEnv) (program : String) (args : List String)
    (hpath : env.getVar "PATH" = none) :
    execute_program env program args =
      (ExecResult.panicked "Failed to get the PATH Environment variable", []) := by
  unfold execute_program
  rw [hpath]

/-! ### Sample environments for concrete instances -/

/-- An environment with nothing set: no variables, an empty file system. -/
def sampleEnv : OSEnv :=
  { getVar := fun _ => none
    cwd := "/"
    multiPathSep := ':'
    pathExists := fun _ => false
    spawn := fun _ _ => SpawnResult.err IoErrorKind.notFound
    flushStdout := none
    setCurrentDir := fun _ => none }

/-! ### The claims -/

/-- The C1 input line: `echo` then a space, then a single-quoted `it`, two
adjacent single quotes, `s` and a closing single quote. -/
def inputC1 : List Char :=
  ['e', 'c', 'h', 'o', ' '] ++ [singleQuote, 'i', 't', singleQuote, singleQuote, 's', singleQuote]

/-- Claim C1 counterexample: tokenizing the C1 line yields three tokens,
word `echo`, quoted string `it` and quoted string `s` (the third and
fourth single quotes delimit `s`), not the claimed four tokens ending in
an empty quoted string and a word `s`. -/
theorem c1_counterexample :
    tokenize inputC1
      = [Token.word ['e', 'c', 'h', 'o'], Token.str ['i', 't'], Token.str ['s']] ∧
    tokenize inputC1
      ≠ [Token.word ['e', 'c', 'h', 'o'], Token.str ['i', 't'], Token.str [],
          Token.word ['s']] := by
  decide

/-- Claim C1 (amended): tokenizing the C1 line yields exactly three tokens
in order — a word token `echo`, a quoted-string token with content `it`
(the quote closing at the first matching single quote), and a
quoted-string token with content `s` (the third and fourth single quotes
form the delimiters); adjacent tokens are never merged. -/
theorem c1_amended :
    tokenize inputC1
      = [Token.word ['e', 'c', 'h', 'o'], Token.str ['i', 't'], Token.str ['s']] := by
  decide

/-- The C4 counterexample line: a single-quoted string holding a space and
the letter a. -/
def inputC4 : List Char := [singleQuote, ' ', 'a', singleQuote]

/-- Claim C4 counterexample: the quoted-string token produced from the C4
line has content beginning with a whitespace character. -/
theorem c4_counterexample :
    tokenize inputC4 = [Token.str [' ', 'a']] ∧ Char.isWhitespace ' ' = true := by
  decide

/-- Claim C4 (amended): every word token and every variable-reference
token produced by the tokenizer contains no whitespace character at all,
so in particular its content neither starts nor ends with whitespace;
quoted-string tokens may contain, start or end with whitespace. -/
theorem c4_amended (input : List Char) (t : Token) (s : List Char)
    (ht : t ∈ tokenize input) (hts : t = Token.word s ∨ t = Token.var s) :
    ∀ c ∈ s, c.isWhitespace = false := by
  unfold tokenize at ht
  rw [← iterAt_zero] at ht
  exact runLexer_sound input (input.length + 1) 0 t ht s hts

/-- Witness for C4 (amended) at a concrete input. -/
theorem c4_amended_witness :
    (Token.word ['a'] ∈ tokenize ['a', ' ', 'b']) ∧
      (∀ c ∈ ['a'], Char.isWhitespace c = false) :=
  ⟨by decide, c4_amended ['a', ' ', 'b'] (Token.word ['a']) ['a'] (by decide) (Or.inl rfl)⟩

/-- Claim C7: an input line made only of whitespace characters tokenizes
to the empty sequence, and `execute` on it returns success with code 0
and performs no builtin dispatch, no existence probe and no spawn. -/
theorem c7_whitespace_only (env : OSEnv) (input : List Char)
    (h : ∀ c ∈ input, c.isWhitespace = true) :
    tokenize input = [] ∧ execute env input = (ExecResult.ok 0, []) := by
  have htok : tokenize input = [] := by
    unfold tokenize
    have hnone : lexNext input (List.enum input) = none :=
      lexNext_none_of_ws input (List.enum input)
        (fun p hp => h p.2 (snd_mem_enumFrom input 0 p hp))
    rw [runLexerFuel, hnone]
  refine ⟨htok, ?_⟩
  unfold execute resolvedCommand
  rw [htok]
  rfl

/-- Witness for C7 at a concrete whitespace-only input. -/
theorem c7_whitespace_only_witness :
    (∀ c ∈ [' ', ' '], Char.isWhitespace c = true) ∧
      (tokenize [' ', ' '] = [] ∧ execute sampleEnv [' ', ' '] = (ExecResult.ok 0, [])) :=
  ⟨by decide, c7_whitespace_only sampleEnv [' ', ' '] (by decide)⟩

/-- The C8 input line: `echo` then a space, a double quote and `abc`, with
no closing quote. -/
def inputC8 : List Char := ['e', 'c', 'h', 'o', ' ', '"', 'a', 'b', 'c']

/-- Claim C8: an opening quote with no matching closing quote raises no
error — the quoted-string token extends to the end of the input — and in
particular the C8 line tokenizes to a word `echo` followed by a quoted
string `abc`. -/
theorem c8_unterminated_quote :
    (∀ (input : List Char) (pos : Nat) (h : pos < input.length) (quote : Char),
      input[pos] = quote → (quote = '"' ∨ quote = singleQuote) →
      (∀ i, ∀ hi : i < input.length, pos < i → input[i] ≠ quote) →
      lexNext input (iterAt input pos) = some (Token.str (input.drop (pos + 1)), [])) ∧
    tokenize inputC8 = [Token.word ['e', 'c', 'h', 'o'], Token.str ['a', 'b', 'c']] := by
  constructor
  · intro input pos h quote hq hqc hnq
    subst hq
    have hwf : (input[pos]).isWhitespace = false := by
      rcases hqc with h1 | h1 <;> rw [h1] <;> decide
    rw [iterAt_cons input pos h]
    simp only [lexNext]
    rw [if_neg (by simp [hwf]), if_pos hqc]
    have hsc := scan_stop_eq (fun ch => ch == input[pos]) input
      input.length (pos + 1) (pos + 1) (by omega) (by omega)
    have hspec := scanIdx_spec (fun ch => ch == input[pos]) input
      input.length (pos + 1) (by omega) (by omega)
    have hml : scanIdx (fun ch => ch == input[pos]) input (pos + 1) = input.length := by
      rcases hspec.2.2.2 with hlen | ⟨hlt2, hstop⟩
      · exact hlen
      · exfalso
        have heqc : input[scanIdx (fun ch => ch == input[pos]) input (pos + 1)] = input[pos] := by
          simpa using hstop
        exact hnq _ hlt2 (by have := hspec.1; omega) heqc
    rw [hsc, hml]
    have h1 : pos + 1 + (input.length - (pos + 1)) = input.length := by omega
    rw [h1]
    have h2 : iterAt input (input.length + 1) = [] := iterAt_nil input _ (by omega)
    have h3 : listSlice input (pos + 1) input.length = input.drop (pos + 1) := by
      unfold listSlice
      rw [← List.length_drop]
      exact List.take_length _
    rw [h2, h3]
  · decide

/-- Witness for the universal part of C8 at a concrete input. -/
theorem c8_unterminated_quote_witness :
    lexNext ['"', 'a', 'b'] (iterAt ['"', 'a', 'b'] 0) = some (Token.str ['a', 'b'], []) :=
  c8_unterminated_quote.1 ['"', 'a', 'b'] 0 (by decide) '"' (by decide) (Or.inl rfl)
    (by decide)

/-- Claim C9: a variable-reference token resolves through the environment
at the point of use — to the exact environment value when the name is set,
and to the empty string (never an error) when it is unset; a bare sigil
produces the empty variable name. -/
theorem c9_var_resolution :
    (∀ (env : OSEnv) (name : List Char) (v : String),
      env.getVar (String.mk name) = some v → Token.as_str env (Token.var name) = v) ∧
    (∀ (env : OSEnv) (name : List Char),
      env.getVar (String.mk name) = none → Token.as_str env (Token.var name) = "") ∧
    tokenize ['$'] = [Token.var []] := by
  refine ⟨?_, ?_, by decide⟩
  · intro env name v hset
    simp [Token.as_str, hset]
  · intro env name hunset
    simp [Token.as_str, hunset]

/-- Environment for the C9 witness: only the variable X is set. -/
def envC9 : OSEnv :=
  { sampleEnv with getVar := fun s => if s = "X" then some "1" else none }

/-- Witness for C9 at concrete variables. -/
theorem c9_var_resolution_witness :
    Token.as_str envC9 (Token.var ['X']) = "1" ∧
      Token.as_str envC9 (Token.var ['Y']) = "" :=
  ⟨c9_var_resolution.1 envC9 ['X'] "1" (by decide),
    c9_var_resolution.2.1 envC9 ['Y'] (by decide)⟩

/-- Environment for the C2 counterexample: PATH names d1 and d2; the path
d1/foo exists but is a directory, so spawning it fails with an
is-a-directory error; d2/foo exists and runs successfully. -/
def envC2 : OSEnv :=
  { getVar := fun s => if s = "PATH" then some "d1:d2" else none
    cwd := "/cw"
    multiPathSep := ':'
    pathExists := fun p => p == "d1/foo" || p == "d2/foo"
    spawn := fun p _ =>
      if p = "d1/foo" then SpawnResult.err IoErrorKind.isADirectory
      else SpawnResult.child (WaitResult.status ⟨some 0⟩)
    flushStdout := none
    setCurrentDir := fun _ => none }

/-- Claim C2 counterexample: with a runnable candidate still waiting in
d2, the is-a-directory spawn error at the existing candidate d1/foo is
surfaced as the outcome of `execute` — the search does not move to the
next candidate, so the error is not recovered locally. -/
theorem c2_counterexample :
    (execute envC2 ['f', 'o', 'o']).1
        = ExecResult.err (ShellError.ioError IoErrorKind.isADirectory) ∧
      (execute envC2 ['f', 'o', 'o']).2 = [Event.probe "d1/foo", Event.spawn "d1/foo"] := by
  decide

/-- Claim C2 (amended): a candidate whose joined path does not exist is
recovered locally — the search moves to the next candidate and no error is
surfaced for it; but when the candidate path exists, any spawn error
there, including is-a-directory, is surfaced immediately as an
infrastructural I/O error and the remaining candidates are not tried. -/
theorem c2_amended :
    (∀ (env : OSEnv) (program : String) (args : List String) (dir : String)
        (rest : List String),
      env.pathExists (joinPath dir program) = false →
      search_candidates env program args (dir :: rest) =
        ((search_candidates env program args rest).1,
          Event.probe (joinPath dir program) :: (search_candidates env program args rest).2)) ∧
    (∀ (env : OSEnv) (program : String) (args : List String) (dir : String)
        (rest : List String) (k : IoErrorKind),
      env.pathExists (joinPath dir program) = true →
      env.spawn (joinPath dir program) args = SpawnResult.err k →
      search_candidates env program args (dir :: rest) =
        (ExecResult.err (ShellError.ioError k),
          [Event.probe (joinPath dir program), Event.spawn (joinPath dir program)])) := by
  constructor
  · intro env program args dir rest h
    exact search_candidates_skip env program args dir rest h
  · intro env program args dir rest k hex hsp
    rw [search_candidates_hit env program args dir rest hex, hsp]

/-- Witness for C2 (amended) at concrete candidates. -/
theorem c2_amended_witness :
    search_candidates envC2 "bar" [] ["d1"] =
      ((search_candidates envC2 "bar" [] []).1,
        Event.probe "d1/bar" :: (search_candidates envC2 "bar" [] []).2) ∧
    search_candidates envC2 "foo" [] ["d1"] =
      (ExecResult.err (ShellError.ioError IoErrorKind.isADirectory),
        [Event.probe "d1/foo", Event.spawn "d1/foo"]) :=
  ⟨(c2_amended.1 envC2 "bar" [] "d1" [] (by decide)).trans (by decide),
    (c2_amended.2 envC2 "foo" [] "d1" [] IoErrorKind.isADirectory (by decide)
      (by decide)).trans (by decide)⟩

/-- Claim C3: the first directory in SearchPath order (the split PATH with
the working directory appended as the final fallback candidate) whose
joined candidate path exists wins: earlier directories are only probed,
the winning candidate is the only path spawned, and the bare-name fallback
is never attempted. -/
theorem c3_first_match (env : OSEnv) (input : List Char) (program : String)
    (args : List String) (path : String) (pre post : List String) (d : String)
    (htok : resolvedCommand env input = program :: args)
    (hnb : BUILTIN_NAMES.contains program = false)
    (hpath : env.getVar "PATH" = some path)
    (hdirs : split_path env.multiPathSep path ++ [env.cwd] = pre ++ d :: post)
    (hpre : ∀ dp ∈ pre, env.pathExists (joinPath dp program) = false)
    (hd : env.pathExists (joinPath d program) = true) :
    execute env input =
      ((match env.spawn (joinPath d program) args with
        | SpawnResult.child w => handle_child w
        | SpawnResult.err k => ExecResult.err (ShellError.ioError k)),
       pre.map (fun dp => Event.probe (joinPath dp program)) ++
         [Event.probe (joinPath d program), Event.spawn (joinPath d program)]) := by
  rw [execute_cons env input program args htok]
  rw [if_neg (by simpa using hnb)]
  rw [execute_program_some env program args path hpath, hdirs]
  exact search_first_hit env program args pre d post hpre hd

/-- Environment for the C3 witness: PATH is `d1:d2`, only d2/foo exists,
and spawning it succeeds with exit code 0. -/
def envC3 : OSEnv :=
  { getVar := fun s => if s = "PATH" then some "d1:d2" else none
    cwd := "/cw"
    multiPathSep := ':'
    pathExists := fun p => p == "d2/foo"
    spawn := fun _ _ => SpawnResult.child (WaitResult.status ⟨some 0⟩)
    flushStdout := none
    setCurrentDir := fun _ => none }

/-- Witness for C3: with only the second PATH directory holding foo, the
binary of the second directory is the one spawned — the first directory is
only probed and no bare-name fallback happens. -/
theorem c3_first_match_witness :
    execute envC3 ['f', 'o', 'o'] =
      (ExecResult.ok 0,
        [Event.probe "d1/foo", Event.probe "d2/foo", Event.spawn "d2/foo"]) :=
  (c3_first_match envC3 ['f', 'o', 'o'] "foo" [] "d1:d2" ["d1"] ["/cw"] "d2"
    (by decide) (by decide) (by decide) (by decide) (by decide) (by decide)).trans
    (by decide)

/-- Claim C5: the termination of a spawned external command is translated
so that a successful (zero) exit status yields the success outcome `Ok 0`,
a non-zero exit status yields the non-zero-exit outcome carrying that
status, a wait failure yields an infrastructural I/O failure, and a spawn
failure — at an existing candidate or at the bare-name fallback — yields
an infrastructural I/O failure. -/
theorem c5_child_translation :
    (∀ s : ExitStatus, s.success = true → handle_child (WaitResult.status s) = ExecResult.ok 0) ∧
    (∀ s : ExitStatus, s.success = false →
      handle_child (WaitResult.status s) = ExecResult.err (ShellError.exitError s)) ∧
    (∀ k : IoErrorKind, handle_child (WaitResult.err k) = ExecResult.err (ShellError.ioError k)) ∧
    (∀ (env : OSEnv) (program : String) (args : List String) (dir : String)
        (rest : List String) (k : IoErrorKind),
      env.pathExists (joinPath dir program) = true →
      env.spawn (joinPath dir program) args = SpawnResult.err k →
      (search_candidates env program args (dir :: rest)).1
        = ExecResult.err (ShellError.ioError k)) ∧
    (∀ (env : OSEnv) (program : String) (args : List String) (k : IoErrorKind),
      env.spawn program args = SpawnResult.err k →
      (search_candidates env program args []).1 = ExecResult.err (ShellError.ioError k)) := by
  refine ⟨?_, ?_, ?_, ?_, ?_⟩
  · intro s hs
    have hc : s.code = some 0 := by
      simpa [ExitStatus.success] using hs
    simp [handle_child, hs, hc, i32_as_u32]
  · intro s hs
    simp [handle_child, hs]
  · intro k
    rfl
  · intro env program args dir rest k hex hsp
    rw [search_candidates_hit env program args dir rest hex, hsp]
  · intro env program args k hsp
    simp [search_candidates, hsp]

/-- Environment for the C5 witness: the only candidate exists but spawning
anything fails with a permission error. -/
def envC5 : OSEnv :=
  { sampleEnv with
    pathExists := fun p => p == "d/foo"
    spawn := fun _ _ => SpawnResult.err IoErrorKind.permissionDenied }

/-- Witness for C5 at concrete statuses and spawn failures. -/
theorem c5_child_translation_witness :
    handle_child (WaitResult.status ⟨some 0⟩) = ExecResult.ok 0 ∧
    handle_child (WaitResult.status ⟨some 2⟩) = ExecResult.err (ShellError.exitError ⟨some 2⟩) ∧
    handle_child (WaitResult.err IoErrorKind.notFound)
      = ExecResult.err (ShellError.ioError IoErrorKind.notFound) ∧
    (search_candidates envC5 "foo" [] ["d"]).1
      = ExecResult.err (ShellError.ioError IoErrorKind.permissionDenied) ∧
    (search_candidates envC5 "foo" [] []).1
      = ExecResult.err (ShellError.ioError IoErrorKind.permissionDenied) :=
  ⟨c5_child_translation.1 ⟨some 0⟩ (by decide),
    c5_child_translation.2.1 ⟨some 2⟩ (by decide),
    c5_child_translation.2.2.1 IoErrorKind.notFound,
    c5_child_translation.2.2.2.1 envC5 "foo" [] "d" [] IoErrorKind.permissionDenied
      (by decide) (by decide),
    c5_child_translation.2.2.2.2 envC5 "foo" [] IoErrorKind.permissionDenied (by decide)⟩

/-- Claim C6: a resolved program name present in the builtin dispatch
table is executed as a builtin with the shell state and arguments, its
result returned directly, with no existence probe and no spawn — whatever
the file system holds, so an external executable of the same name on PATH
is shadowed. -/
theorem c6_builtin_shadowing (env : OSEnv) (input : List Char) (program : String)
    (args : List String) (htok : resolvedCommand env input = program :: args)
    (hb : BUILTIN_NAMES.contains program = true) :
    execute env input = (run_builtin env program args, [Event.builtin program]) ∧
    ∀ e ∈ (execute env input).2, (∀ p, e ≠ Event.probe p) ∧ (∀ p, e ≠ Event.spawn p) := by
  have hmain : execute env input = (run_builtin env program args, [Event.builtin program]) := by
    rw [execute_cons env input program args htok, if_pos hb]
  refine ⟨hmain, ?_⟩
  rw [hmain]
  intro e he
  simp only [List.mem_singleton] at he
  subst he
  exact ⟨fun p => by simp, fun p => by simp⟩

/-- Environment for the C6 witness: PATH holds a directory bin in which an
external executable named cd exists. -/
def envC6 : OSEnv :=
  { sampleEnv with
    getVar := fun s => if s = "PATH" then some "bin" else none
    pathExists := fun p => p == "bin/cd"
    spawn := fun _ _ => SpawnResult.child (WaitResult.status ⟨some 0⟩) }

/-- Witness for C6: the line `cd` dispatches to the cd builtin (failing
for lack of an argument) even though bin/cd exists on PATH. -/
theorem c6_builtin_shadowing_witness :
    execute envC6 ['c', 'd'] = (run_builtin envC6 "cd" [], [Event.builtin "cd"]) :=
  (c6_builtin_shadowing envC6 ['c', 'd'] "cd" [] (by decide) (by decide)).1

/-- Claim C10: when PATH is unset, executing any non-empty command whose
program name is not a builtin panics in the `expect` reading PATH — the
call never returns an outcome to the caller. -/
theorem c10_path_unset_panics (env : OSEnv) (input : List Char) (program : String)
    (args : List String) (hpath : env.getVar "PATH" = none)
    (htok : resolvedCommand env input = program :: args)
    (hnb : BUILTIN_NAMES.contains program = false) :
    execute env input = (ExecResult.panicked "Failed to get the PATH Environment variable", []) := by
  rw [execute_cons env input program args htok, if_neg (by simpa using hnb)]
  exact execute_program_none env program args hpath

/-- Witness for C10: `sampleEnv` has no PATH, so running foo panics. -/
theorem c10_path_unset_panics_witness :
    execute sampleEnv ['f', 'o', 'o']
      = (ExecResult.panicked "Failed to get the PATH Environment variable", []) :=
  c10_path_unset_panics sampleEnv ['f', 'o', 'o'] "foo" [] rfl (by decide) (by decide)
